import Mathlib

/-!
Shallow embedding of the chain-analytics agent (src/index.ts): the data model,
the name matcher, the stable descending sort, the category heuristics and the
six query handlers, with JavaScript numbers modelled as rationals and fallible
fetches modelled as `Except`.  Formatting of numbers into display strings is
presentation-only and is not modelled; every formatted quantity is kept in its
raw numeric form.
-/

namespace ChainAnalytics

/-- A network record from the chains feed (`interface Chain`). -/
structure Chain where
  name : String
  tvl : ℚ
  tokenSymbol : Option String
  gecko_id : Option String
  chainId : Option Int
deriving DecidableEq

/-- A stablecoin-supply record (`interface StablecoinChain`); `peggedUSD`
models the optional field `totalCirculatingUSD.peggedUSD`. -/
structure StablecoinChain where
  name : String
  gecko_id : Option String
  tokenSymbol : Option String
  peggedUSD : Option ℚ
deriving DecidableEq

/-- A bridge record (`interface Bridge`). -/
structure Bridge where
  id : Int
  name : String
  displayName : String
  last24hVolume : ℚ
  weeklyVolume : ℚ
  monthlyVolume : ℚ
  chains : List String
deriving DecidableEq

/-- Character-list prefix test, the scan step of `String.prototype.includes`. -/
def listStartsWith : List Char → List Char → Bool
  | [], _ => true
  | _ :: _, [] => false
  | p :: ps, c :: cs => p == c && listStartsWith ps cs

/-- `listContainsSub pat s` : `pat` occurs contiguously in `s`. -/
def listContainsSub (pat : List Char) : List Char → Bool
  | [] => listStartsWith pat []
  | c :: cs => listStartsWith pat (c :: cs) || listContainsSub pat cs

/-- Model of JavaScript `toLowerCase()`: per-character ASCII case-folding,
the same folding as `String.toLower`, written on the character list so that it
evaluates inside the kernel. -/
def jsToLower (s : String) : String := ⟨s.data.map Char.toLower⟩

/-- Model of JavaScript `s.includes(pat)`. -/
def jsIncludes (s pat : String) : Bool :=
  listContainsSub pat.toList s.toList

/-- Model of `collection.find(r => r.name.toLowerCase() === q.toLowerCase())`. -/
def findByName {α : Type} (getName : α → String) (q : String) (l : List α) : Option α :=
  l.find? fun a => jsToLower (getName a) == jsToLower q

/-- Descending order by a rational-valued key.  The JS comparator
`(a, b) => key(b) - key(a)` sorts by exactly this relation. -/
def descRel {α : Type} (key : α → ℚ) (a b : α) : Prop := key b ≤ key a

instance {α : Type} (key : α → ℚ) : DecidableRel (descRel key) :=
  fun a b => inferInstanceAs (Decidable (key b ≤ key a))

instance {α : Type} (key : α → ℚ) : IsTotal α (descRel key) :=
  ⟨fun a b => le_total (key b) (key a)⟩

instance {α : Type} (key : α → ℚ) : IsTrans α (descRel key) :=
  ⟨fun _ _ _ hab hbc => le_trans hbc hab⟩

/-- Stable descending sort by key: model of `arr.sort((a, b) => key(b) - key(a))`
(ECMAScript `Array.prototype.sort` is specified stable). -/
def sortDescBy {α : Type} (key : α → ℚ) (l : List α) : List α :=
  l.insertionSort (descRel key)

/-- Model of `list.map((x, i) => f(i, x))`: map with the element's index. -/
def mapWithRank {α β : Type} (f : Nat → α → β) : Nat → List α → List β
  | _, [] => []
  | n, x :: xs => f n x :: mapWithRank f (n + 1) xs

/-- Model of `arr.reduce((a, b) => f(a, b))` with no initial value (JS throws
on an empty array, modelled as `none`). -/
def jsReduce {α : Type} (f : α → α → α) : List α → Option α
  | [] => none
  | x :: xs => some (xs.foldl f x)

/-- Model of the reducer `(a, b) => v(a) > v(b) ? a : b`. -/
def pickMax {α : Type} (v : α → ℚ) (a b : α) : α :=
  if v b < v a then a else b

/-- Model of JavaScript `x || d` for an optional string (`undefined` and `""`
are falsy). -/
def jsOrString (a : Option String) (d : String) : String :=
  match a with
  | some s => if s = "" then d else s
  | none => d

/-- Model of JavaScript `x || d` for an optional number (`undefined` and `0`
are falsy). -/
def jsOrRat (a : Option ℚ) (d : ℚ) : ℚ :=
  match a with
  | some x => if x = 0 then d else x
  | none => d

/-! ### Overview view -/

structure Top5Entry where
  rank : Nat
  name : String
  tvlRaw : ℚ
deriving DecidableEq

structure OverviewOut where
  totalChains : Nat
  totalTVLRaw : ℚ
  top5 : List Top5Entry
deriving DecidableEq

/-- The `overview` handler: full descending sort by tvl, total over the whole
collection, top-5 slice with 1-based ranks. -/
def overviewHandler (chains : List Chain) : OverviewOut :=
  let sorted := sortDescBy (fun c => c.tvl) chains
  { totalChains := chains.length
    totalTVLRaw := (chains.map fun c => c.tvl).sum
    top5 := mapWithRank (fun i c => { rank := i + 1, name := c.name, tvlRaw := c.tvl })
      0 (sorted.take 5) }

/-! ### Chain-details view -/

structure ChainDetails where
  name : String
  tvlRaw : ℚ
  rank : Nat
  totalChains : Nat
  tokenSymbol : Option String
  geckoId : Option String
  chainId : Option Int
  stablecoins : Option ℚ
deriving DecidableEq

inductive ChainDetailsOut where
  | notFound (availableChains : List String)
  | ok (details : ChainDetails)
deriving DecidableEq

/-- The `chain-details` handler.  The not-found sample `chains.slice(0, 20)` is
taken before the sort, hence in original fetched order.  (`findIndex` cannot
miss: the searched name is the name of a member of the collection.) -/
def chainDetailsHandler (chains : List Chain) (stables : List StablecoinChain)
    (chain : String) : ChainDetailsOut :=
  match findByName Chain.name chain chains with
  | none => .notFound ((chains.take 20).map Chain.name)
  | some chainData =>
      let stableData := findByName StablecoinChain.name chain stables
      let sorted := sortDescBy (fun c => c.tvl) chains
      .ok { name := chainData.name
            tvlRaw := chainData.tvl
            rank := (sorted.findIdx fun c => c.name == chainData.name) + 1
            totalChains := chains.length
            tokenSymbol := chainData.tokenSymbol
            geckoId := chainData.gecko_id
            chainId := chainData.chainId
            stablecoins := stableData.map fun s => jsOrRat s.peggedUSD 0 }

/-! ### Top-chains view -/

def l2Names : List String :=
  ["Base", "Arbitrum", "OP Mainnet", "Scroll", "Linea", "Blast",
   "zkSync Era", "Polygon zkEVM", "Mantle", "Mode", "Starknet", "Taiko", "Manta"]

def l1Names : List String := ["Ethereum", "BSC", "Solana", "Tron", "Bitcoin"]

/-- `l2Names.some(l2 => c.name.toLowerCase().includes(l2.toLowerCase()))`. -/
def matchesL2 (c : Chain) : Bool :=
  l2Names.any fun n => jsIncludes (jsToLower c.name) (jsToLower n)

/-- `l1Names.some(l1 => c.name.toLowerCase().includes(l1.toLowerCase()))`. -/
def matchesL1 (c : Chain) : Bool :=
  l1Names.any fun n => jsIncludes (jsToLower c.name) (jsToLower n)

inductive Category where
  | all | l2 | l1 | altL1
deriving DecidableEq

/-- The category filter branch of the `top-chains` handler. -/
def categoryFilter (category : Category) (l : List Chain) : List Chain :=
  match category with
  | .all => l
  | .l2 => l.filter matchesL2
  | .l1 => l.filter matchesL1
  | .altL1 => l.filter fun c => !matchesL2 c && !matchesL1 c

/-- `chains.filter(c => c.tvl >= minTvl)` followed by the category filter. -/
def topChainsFiltered (chains : List Chain) (minTvl : ℚ) (category : Category) : List Chain :=
  categoryFilter category (chains.filter fun c => decide (minTvl ≤ c.tvl))

/-- `filtered.sort((a, b) => b.tvl - a.tvl).slice(0, limit)`. -/
def topChainsDisplayed (chains : List Chain) (limit : Nat) (minTvl : ℚ)
    (category : Category) : List Chain :=
  (sortDescBy (fun c => c.tvl) (topChainsFiltered chains minTvl category)).take limit

structure RankedChainEntry where
  rank : Nat
  name : String
  tvlRaw : ℚ
  tokenSymbol : Option String
deriving DecidableEq

structure TopChainsOut where
  limit : Nat
  minTvl : ℚ
  category : Category
  count : Nat
  totalTVLRaw : ℚ
  chains : List RankedChainEntry
deriving DecidableEq

/-- The `top-chains` handler. -/
def topChainsHandler (chains : List Chain) (limit : Nat) (minTvl : ℚ)
    (category : Category) : TopChainsOut :=
  let sorted := topChainsDisplayed chains limit minTvl category
  { limit := limit
    minTvl := minTvl
    category := category
    count := sorted.length
    totalTVLRaw := (sorted.map fun c => c.tvl).sum
    chains := mapWithRank (fun i c =>
      { rank := i + 1, name := c.name, tvlRaw := c.tvl, tokenSymbol := c.tokenSymbol })
      0 sorted }

/-! ### Stablecoin-distribution view -/

structure StableEntry where
  name : String
  stablecoinsUSD : ℚ
  tokenSymbol : Option String
deriving DecidableEq

/-- The filter `s.totalCirculatingUSD.peggedUSD && s.totalCirculatingUSD.peggedUSD > 0`
(absent and zero are both falsy). -/
def hasPositiveUSD (s : StablecoinChain) : Bool :=
  match s.peggedUSD with
  | some v => decide (0 < v)
  | none => false

/-- `stables.filter(..).map(..).sort((a, b) => b.stablecoinsUSD - a.stablecoinsUSD).slice(0, limit)`. -/
def stableDisplayed (stables : List StablecoinChain) (limit : Nat) : List StableEntry :=
  (sortDescBy (fun s => s.stablecoinsUSD)
    ((stables.filter hasPositiveUSD).map fun s =>
      { name := s.name, stablecoinsUSD := s.peggedUSD.getD 0, tokenSymbol := s.tokenSymbol }))
  |>.take limit

structure DistributionEntry where
  rank : Nat
  chain : String
  stablecoinsRaw : ℚ
  share : ℚ
deriving DecidableEq

structure StablecoinFlowsOut where
  totalStablecoinsRaw : ℚ
  chainCount : Nat
  distribution : List DistributionEntry
deriving DecidableEq

/-- The `stablecoin-flows` handler: the displayed total and the shares are
computed over the already-sliced list. -/
def stablecoinFlowsHandler (stables : List StablecoinChain) (limit : Nat) :
    StablecoinFlowsOut :=
  let withUSD := stableDisplayed stables limit
  let totalStables := (withUSD.map fun s => s.stablecoinsUSD).sum
  { totalStablecoinsRaw := totalStables
    chainCount := withUSD.length
    distribution := mapWithRank (fun i s =>
      { rank := i + 1, chain := s.name, stablecoinsRaw := s.stablecoinsUSD,
        share := s.stablecoinsUSD / totalStables * 100 }) 0 withUSD }

/-! ### Bridge-volume view -/

inductive Period where
  | h24 | d7 | d30
deriving DecidableEq

/-- The volume field selected by `period` (`last24hVolume` / `weeklyVolume` /
`monthlyVolume`). -/
def volumeOf (period : Period) (b : Bridge) : ℚ :=
  match period with
  | .h24 => b.last24hVolume
  | .d7 => b.weeklyVolume
  | .d30 => b.monthlyVolume

/-- `bridges.filter(b => b[volumeKey] > 0).sort(..).slice(0, limit)`. -/
def bridgeDisplayed (bridges : List Bridge) (limit : Nat) (period : Period) : List Bridge :=
  (sortDescBy (volumeOf period) (bridges.filter fun b => decide (0 < volumeOf period b))).take limit

structure BridgeEntry where
  rank : Nat
  name : String
  volumeRaw : ℚ
  share : ℚ
  supportedChains : Nat
  chains : List String
deriving DecidableEq

structure BridgeVolumeOut where
  period : Period
  totalVolumeRaw : ℚ
  bridgeCount : Nat
  bridges : List BridgeEntry
deriving DecidableEq

/-- The `bridge-volume` handler: total and shares over the sliced list. -/
def bridgeVolumeHandler (bridges : List Bridge) (limit : Nat) (period : Period) :
    BridgeVolumeOut :=
  let sorted := bridgeDisplayed bridges limit period
  let totalVolume := (sorted.map (volumeOf period)).sum
  { period := period
    totalVolumeRaw := totalVolume
    bridgeCount := sorted.length
    bridges := mapWithRank (fun i b =>
      { rank := i + 1, name := b.displayName, volumeRaw := volumeOf period b,
        share := volumeOf period b / totalVolume * 100,
        supportedChains := b.chains.length, chains := b.chains.take 5 }) 0 sorted }

/-! ### Chain-compare view -/

structure CompareEntry where
  name : String
  found : Bool
  tvlRaw : ℚ
  rank : Option Nat
  tokenSymbol : Option String
  stablecoinsRaw : ℚ
  bridgesSupported : Nat
deriving DecidableEq

structure CompareOut where
  chainsCompared : Nat
  comparison : List CompareEntry
  highestTVL : Option String
  mostStablecoins : Option String
deriving DecidableEq

/-- One element of the `comparison` array of the `chain-compare` handler. -/
def compareEntryFor (allChains : List Chain) (stables : List StablecoinChain)
    (bridges : List Bridge) (sorted : List Chain) (name : String) : CompareEntry :=
  let chain := findByName Chain.name name allChains
  let stable := findByName StablecoinChain.name name stables
  { name := jsOrString (chain.map Chain.name) name
    found := chain.isSome
    tvlRaw := jsOrRat (chain.map Chain.tvl) 0
    rank := chain.map fun ch => (sorted.findIdx fun c => c.name == ch.name) + 1
    tokenSymbol := chain.bind Chain.tokenSymbol
    stablecoinsRaw := jsOrRat (stable.bind StablecoinChain.peggedUSD) 0
    bridgesSupported := (bridges.filter fun b =>
      b.chains.any fun c => jsToLower c == jsToLower name).length }

/-- The `chain-compare` handler; the winners are the two
`reduce((a, b) => a.X > b.X ? a : b)` selections. -/
def chainCompareHandler (allChains : List Chain) (stables : List StablecoinChain)
    (bridges : List Bridge) (chainNames : List String) : CompareOut :=
  let sorted := sortDescBy (fun c => c.tvl) allChains
  let comparison := chainNames.map (compareEntryFor allChains stables bridges sorted)
  { chainsCompared := chainNames.length
    comparison := comparison
    highestTVL := (jsReduce (pickMax CompareEntry.tvlRaw) comparison).map CompareEntry.name
    mostStablecoins :=
      (jsReduce (pickMax CompareEntry.stablecoinsRaw) comparison).map CompareEntry.name }

/-! ### Fetch layer -/

/-- A raw HTTP response as the fetch helpers see it. -/
structure FetchResponse (α : Type) where
  ok : Bool
  status : Nat
  body : α

/-- `fetchChains`: throws (models as `Except.error`) when `!res.ok`. -/
def fetchChains (res : FetchResponse (List Chain)) : Except String (List Chain) :=
  if res.ok then .ok res.body else .error ("Chains API error: " ++ toString res.status)

/-- `fetchStablecoins`: throws when `!res.ok`. -/
def fetchStablecoins (res : FetchResponse (List StablecoinChain)) :
    Except String (List StablecoinChain) :=
  if res.ok then .ok res.body else .error ("Stablecoins API error: " ++ toString res.status)

/-- `fetchBridges`: throws when `!res.ok`. -/
def fetchBridges (res : FetchResponse (List Bridge)) : Except String (List Bridge) :=
  if res.ok then .ok res.body else .error ("Bridges API error: " ++ toString res.status)

/-- `overview` query end to end: a failed fetch rejects the whole query. -/
def runOverview (rc : FetchResponse (List Chain)) : Except String OverviewOut :=
  match fetchChains rc with
  | .error e => .error e
  | .ok chains => .ok (overviewHandler chains)

/-- `chain-details` query end to end (`Promise.all` of two fetches). -/
def runChainDetails (rc : FetchResponse (List Chain))
    (rs : FetchResponse (List StablecoinChain)) (chain : String) :
    Except String ChainDetailsOut :=
  match fetchChains rc, fetchStablecoins rs with
  | .error e, _ => .error e
  | .ok _, .error e => .error e
  | .ok chains, .ok stables => .ok (chainDetailsHandler chains stables chain)

/-- `top-chains` query end to end. -/
def runTopChains (rc : FetchResponse (List Chain)) (limit : Nat) (minTvl : ℚ)
    (category : Category) : Except String TopChainsOut :=
  match fetchChains rc with
  | .error e => .error e
  | .ok chains => .ok (topChainsHandler chains limit minTvl category)

/-- `stablecoin-flows` query end to end. -/
def runStablecoinFlows (rs : FetchResponse (List StablecoinChain)) (limit : Nat) :
    Except String StablecoinFlowsOut :=
  match fetchStablecoins rs with
  | .error e => .error e
  | .ok stables => .ok (stablecoinFlowsHandler stables limit)

/-- `bridge-volume` query end to end. -/
def runBridgeVolume (rb : FetchResponse (List Bridge)) (limit : Nat) (period : Period) :
    Except String BridgeVolumeOut :=
  match fetchBridges rb with
  | .error e => .error e
  | .ok bridges => .ok (bridgeVolumeHandler bridges limit period)

/-- `chain-compare` query end to end (`Promise.all` of all three fetches). -/
def runChainCompare (rc : FetchResponse (List Chain))
    (rs : FetchResponse (List StablecoinChain)) (rb : FetchResponse (List Bridge))
    (chainNames : List String) : Except String CompareOut :=
  match fetchChains rc, fetchStablecoins rs, fetchBridges rb with
  | .error e, _, _ => .error e
  | .ok _, .error e, _ => .error e
  | .ok _, .ok _, .error e => .error e
  | .ok chains, .ok stables, .ok bridges =>
      .ok (chainCompareHandler chains stables bridges chainNames)

end ChainAnalytics

namespace ChainAnalytics

/-! ### Sorting lemmas -/

theorem sortDescBy_perm {α : Type} (key : α → ℚ) (l : List α) : (sortDescBy key l).Perm l :=
  List.perm_insertionSort _ l

theorem sortDescBy_pairwise {α : Type} (key : α → ℚ) (l : List α) :
    (sortDescBy key l).Pairwise (descRel key) :=
  List.sorted_insertionSort _ l

theorem mem_sortDescBy {α : Type} {key : α → ℚ} {l : List α} {x : α} :
    x ∈ sortDescBy key l ↔ x ∈ l :=
  (sortDescBy_perm key l).mem_iff

theorem filter_orderedInsert_of_eq {α : Type} (key : α → ℚ) (k : ℚ) (x : α) (hx : key x = k) :
    ∀ l : List α, (List.orderedInsert (descRel key) x l).filter (fun a => decide (key a = k)) =
      x :: l.filter (fun a => decide (key a = k))
  | [] => by simp [List.orderedInsert, hx]
  | b :: l => by
    by_cases h : descRel key x b
    · simp [List.orderedInsert, h, hx]
    · have hb : ¬(key b = k) := fun hbk => h (by rw [descRel, hbk, hx])
      simp [List.orderedInsert, h, hb, filter_orderedInsert_of_eq key k x hx l, hx]

theorem filter_orderedInsert_of_ne {α : Type} (key : α → ℚ) (k : ℚ) (x : α) (hx : ¬(key x = k)) :
    ∀ l : List α, (List.orderedInsert (descRel key) x l).filter (fun a => decide (key a = k)) =
      l.filter (fun a => decide (key a = k))
  | [] => by simp [List.orderedInsert, hx]
  | b :: l => by
    by_cases h : descRel key x b
    · simp [List.orderedInsert, h, hx]
    · have ih := filter_orderedInsert_of_ne key k x hx l
      simp [List.orderedInsert, h, List.filter_cons, ih]

/-- Stability of the descending sort: for every key value, the entries carrying
that value come out in exactly their input order. -/
theorem sortDescBy_filter_key {α : Type} (key : α → ℚ) (k : ℚ) :
    ∀ l : List α, (sortDescBy key l).filter (fun a => decide (key a = k)) =
      l.filter (fun a => decide (key a = k))
  | [] => rfl
  | x :: l => by
    have hsort : sortDescBy key (x :: l) =
        List.orderedInsert (descRel key) x (sortDescBy key l) := rfl
    by_cases hx : key x = k
    · rw [hsort, filter_orderedInsert_of_eq key k x hx, sortDescBy_filter_key key k l]
      simp [hx]
    · rw [hsort, filter_orderedInsert_of_ne key k x hx, sortDescBy_filter_key key k l]
      simp [hx]

/-! ### `mapWithRank` lemmas -/

theorem mapWithRank_map {α β γ : Type} (f : Nat → α → β) (g : β → γ) (h : α → γ)
    (hc : ∀ i x, g (f i x) = h x) :
    ∀ (n : Nat) (l : List α), (mapWithRank f n l).map g = l.map h
  | _, [] => rfl
  | n, x :: xs => by
    simp [mapWithRank, hc, mapWithRank_map f g h hc (n + 1) xs]

theorem mapWithRank_ranks {α β : Type} (f : Nat → α → β) (rk : β → Nat)
    (hc : ∀ i x, rk (f i x) = i + 1) :
    ∀ (n : Nat) (l : List α), (mapWithRank f n l).map rk = List.range' (n + 1) l.length
  | _, [] => rfl
  | n, x :: xs => by
    have : List.range' (n + 1) (xs.length + 1) = (n + 1) :: List.range' (n + 2) xs.length := rfl
    simp [mapWithRank, hc, mapWithRank_ranks f rk hc (n + 1) xs, this]

theorem mem_mapWithRank {α β : Type} {f : Nat → α → β} {y : β} :
    ∀ {n : Nat} {l : List α}, y ∈ mapWithRank f n l → ∃ i x, x ∈ l ∧ y = f i x := by
  intro n l
  induction l generalizing n with
  | nil => intro h; cases h
  | cons x xs ih =>
    intro h
    rcases List.mem_cons.mp h with h | h
    · exact ⟨n, x, List.mem_cons_self x xs, h⟩
    · rcases ih h with ⟨i, x', hx', hy⟩
      exact ⟨i, x', List.mem_cons_of_mem x hx', hy⟩

theorem mapWithRank_eq_nil {α β : Type} (f : Nat → α → β) (n : Nat) (l : List α) :
    mapWithRank f n l = [] ↔ l = [] := by
  cases l <;> simp [mapWithRank]

/-! ### Sum lemmas -/

theorem sum_map_div_mul (t : ℚ) : ∀ l : List ℚ,
    (l.map fun v => v / t * 100).sum = l.sum / t * 100
  | [] => by simp
  | v :: l => by
    simp [sum_map_div_mul t l]
    ring

/-! ### Positivity of the displayed entries -/

theorem stableDisplayed_pos {stables : List StablecoinChain} {limit : Nat} {s : StableEntry}
    (hs : s ∈ stableDisplayed stables limit) : 0 < s.stablecoinsUSD := by
  unfold stableDisplayed at hs
  have h1 := List.take_subset _ _ hs
  rw [mem_sortDescBy] at h1
  rcases List.mem_map.mp h1 with ⟨s0, hs0, rfl⟩
  have hpos := (List.mem_filter.mp hs0).2
  unfold hasPositiveUSD at hpos
  cases hp : s0.peggedUSD with
  | none => rw [hp] at hpos; cases hpos
  | some v =>
      rw [hp] at hpos
      simp only [decide_eq_true_eq] at hpos
      simpa [hp] using hpos

theorem bridgeDisplayed_pos {bridges : List Bridge} {limit : Nat} {period : Period} {b : Bridge}
    (hb : b ∈ bridgeDisplayed bridges limit period) : 0 < volumeOf period b := by
  unfold bridgeDisplayed at hb
  have h1 := List.take_subset _ _ hb
  rw [mem_sortDescBy] at h1
  have h2 := (List.mem_filter.mp h1).2
  simpa using h2

/-! ### `reduce((a, b) => v(a) > v(b) ? a : b)` lemmas -/

theorem foldl_pickMax_mem {α : Type} (v : α → ℚ) :
    ∀ (xs : List α) (acc : α),
      xs.foldl (pickMax v) acc = acc ∨ xs.foldl (pickMax v) acc ∈ xs
  | [], _ => Or.inl rfl
  | x :: xs, acc => by
    rw [List.foldl_cons]
    rcases foldl_pickMax_mem v xs (pickMax v acc x) with h | h
    · rw [h]
      unfold pickMax
      split
      · exact Or.inl rfl
      · exact Or.inr (List.mem_cons_self x xs)
    · exact Or.inr (List.mem_cons_of_mem x h)

theorem le_foldl_pickMax {α : Type} (v : α → ℚ) :
    ∀ (xs : List α) (acc : α), v acc ≤ v (xs.foldl (pickMax v) acc)
  | [], _ => le_refl _
  | x :: xs, acc => by
    rw [List.foldl_cons]
    refine le_trans ?_ (le_foldl_pickMax v xs (pickMax v acc x))
    unfold pickMax
    split
    · exact le_refl _
    · next h => exact le_of_not_lt h

theorem mem_le_foldl_pickMax {α : Type} (v : α → ℚ) :
    ∀ (xs : List α) (acc : α) (y : α), y ∈ xs → v y ≤ v (xs.foldl (pickMax v) acc)
  | [], _, y, hy => absurd hy (List.not_mem_nil y)
  | x :: xs, acc, y, hy => by
    rw [List.foldl_cons]
    rcases List.mem_cons.mp hy with rfl | hy
    · refine le_trans ?_ (le_foldl_pickMax v xs (pickMax v acc y))
      unfold pickMax
      split
      · next h => exact le_of_lt h
      · exact le_refl _
    · exact mem_le_foldl_pickMax v xs (pickMax v acc x) y hy

theorem foldl_pickMax_all_eq {α : Type} (v : α → ℚ) :
    ∀ (xs : List α) (acc : α), (∀ y ∈ xs, v y = v acc) →
      xs.foldl (pickMax v) acc = xs.getLastD acc
  | [], _, _ => rfl
  | x :: xs, acc, h => by
    have hx : v x = v acc := h x (List.mem_cons_self x xs)
    have hstep : pickMax v acc x = x := by
      unfold pickMax
      rw [if_neg (by rw [hx]; exact lt_irrefl _)]
    rw [List.foldl_cons, hstep, List.getLastD_cons]
    exact foldl_pickMax_all_eq v xs x fun y hy => by
      rw [h y (List.mem_cons_of_mem x hy), hx]

end ChainAnalytics

namespace ChainAnalytics

theorem mapWithRank_length {α β : Type} (f : Nat → α → β) :
    ∀ (n : Nat) (l : List α), (mapWithRank f n l).length = l.length
  | _, [] => rfl
  | n, x :: xs => by simp [mapWithRank, mapWithRank_length f (n + 1) xs]

/-- The three structural facts shared by every ranked view: ranks are
`1, 2, ..., n`, and the ranking field is non-increasing along the output. -/
theorem ranked_output_props {α β : Type} (key : α → ℚ) (l : List α) (n : Nat)
    (mk : Nat → α → β) (rk : β → Nat) (val : β → ℚ)
    (hrk : ∀ i x, rk (mk i x) = i + 1) (hval : ∀ i x, val (mk i x) = key x) :
    ((mapWithRank mk 0 ((sortDescBy key l).take n)).map rk =
      List.range' 1 (mapWithRank mk 0 ((sortDescBy key l).take n)).length) ∧
    ((mapWithRank mk 0 ((sortDescBy key l).take n)).map val).Pairwise (fun a b => b ≤ a) := by
  constructor
  · rw [mapWithRank_length]
    exact mapWithRank_ranks mk rk hrk 0 _
  · rw [mapWithRank_map mk val (fun x => key x) hval 0 _]
    refine List.pairwise_map.mpr ?_
    exact ((sortDescBy_pairwise key l).sublist (List.take_sublist n _)).imp fun h => h

/-- The displayed slice of any key value is, in order, a sublist of the input
slice of that value (stability through the limit). -/
theorem take_sortDescBy_filter_sublist {α : Type} (key : α → ℚ) (l : List α) (n : Nat) (k : ℚ) :
    List.Sublist (((sortDescBy key l).take n).filter (fun a => decide (key a = k)))
      (l.filter (fun a => decide (key a = k))) := by
  have h1 := (List.take_sublist n (sortDescBy key l)).filter (fun a => decide (key a = k))
  rw [sortDescBy_filter_key] at h1
  exact h1

/-! ### Concrete records used by witnesses and counterexamples -/

def ethereumChain : Chain :=
  { name := "Ethereum", tvl := 50, tokenSymbol := some "ETH",
    gecko_id := some "ethereum", chainId := some 1 }

def bothListsChain : Chain :=
  { name := "Base Ethereum", tvl := 1, tokenSymbol := none, gecko_id := none, chainId := none }

def soloChain : Chain :=
  { name := "Cosmos", tvl := 2, tokenSymbol := none, gecko_id := none, chainId := none }

def bridgeW100 : Bridge :=
  { id := 1, name := "bridge-one", displayName := "Bridge One",
    last24hVolume := 0, weeklyVolume := 100, monthlyVolume := 0, chains := [] }

def bridgeW0 : Bridge :=
  { id := 2, name := "bridge-two", displayName := "Bridge Two",
    last24hVolume := 0, weeklyVolume := 0, monthlyVolume := 0, chains := [] }

/-! ### Claim C8 -/

/-- C8: entity lookup is case-insensitive and exact after case-folding: two
query strings equal after lowercasing give the same lookup result on any
collection, and any record the lookup returns has a case-folded name exactly
equal to the case-folded query (no trimming, no partial matching). -/
theorem C8_find_case_insensitive :
    (∀ (α : Type) (getName : α → String) (l : List α) (q₁ q₂ : String),
        jsToLower q₁ = jsToLower q₂ →
        findByName getName q₁ l = findByName getName q₂ l) ∧
    (∀ (α : Type) (getName : α → String) (l : List α) (q : String) (r : α),
        findByName getName q l = some r → jsToLower (getName r) = jsToLower q) := by
  constructor
  · intro α getName l q₁ q₂ h
    unfold findByName
    rw [h]
  · intro α getName l q r h
    unfold findByName at h
    have hp := List.find?_some h
    simpa using hp

/-- Witness for C8: the three casings of "Ethereum" coincide on a concrete
collection, and a returned record's folded name equals the folded query. -/
theorem C8_find_case_insensitive_witness :
    (findByName Chain.name "Ethereum" [ethereumChain] =
      findByName Chain.name "ETHEREUM" [ethereumChain]) ∧
    (findByName Chain.name "ETHEREUM" [ethereumChain] =
      findByName Chain.name "ethereum" [ethereumChain]) ∧
    jsToLower (Chain.name ethereumChain) = jsToLower "ethereum" :=
  ⟨C8_find_case_insensitive.1 Chain Chain.name [ethereumChain] "Ethereum" "ETHEREUM" (by decide),
   C8_find_case_insensitive.1 Chain Chain.name [ethereumChain] "ETHEREUM" "ethereum" (by decide),
   C8_find_case_insensitive.2 Chain Chain.name [ethereumChain] "ethereum" ethereumChain (by decide)⟩

/-! ### Claim C2 -/

/-- C2 counterexample: the record named "Base Ethereum" matches both curated
lists ("Base" from the L2 list, "Ethereum" from the L1 list), so it appears in
BOTH the l2 and the l1 category-filtered views: the three views are not
pairwise disjoint and the classification is not exactly-one. -/
theorem C2_counterexample :
    matchesL2 bothListsChain = true ∧ matchesL1 bothListsChain = true ∧
    ((topChainsHandler [bothListsChain] 50 0 Category.l2).chains.map
        RankedChainEntry.name = ["Base Ethereum"]) ∧
    ((topChainsHandler [bothListsChain] 50 0 Category.l1).chains.map
        RankedChainEntry.name = ["Base Ethereum"]) := by
  refine ⟨by decide, by decide, by decide, by decide⟩

/-- C2 (amended): the category views are total and cover every record — the
alt-l1 view holds exactly of records matching neither curated list and is
disjoint from both the l2 and the l1 views — but the l2 and l1 views are not
always disjoint: a record lies in both exactly when its name matches both
lists, so the classification is exactly-one precisely for records that do not
match both lists. -/
theorem C2_amended : ∀ (c : Chain) (l : List Chain),
    (c ∈ categoryFilter Category.altL1 l ↔
      c ∈ l ∧ matchesL2 c = false ∧ matchesL1 c = false) ∧
    (c ∈ l → c ∈ categoryFilter Category.l2 l ∨ c ∈ categoryFilter Category.l1 l ∨
      c ∈ categoryFilter Category.altL1 l) ∧
    ¬(c ∈ categoryFilter Category.l2 l ∧ c ∈ categoryFilter Category.altL1 l) ∧
    ¬(c ∈ categoryFilter Category.l1 l ∧ c ∈ categoryFilter Category.altL1 l) ∧
    ((c ∈ categoryFilter Category.l2 l ∧ c ∈ categoryFilter Category.l1 l) ↔
      c ∈ l ∧ matchesL2 c = true ∧ matchesL1 c = true) := by
  intro c l
  simp only [categoryFilter, List.mem_filter]
  cases h2 : matchesL2 c <;> cases h1 : matchesL1 c <;> simp [h2, h1]

/-- Witness for C2 (amended) at a record matching neither list. -/
theorem C2_amended_witness :
    soloChain ∈ categoryFilter Category.l2 [soloChain] ∨
    soloChain ∈ categoryFilter Category.l1 [soloChain] ∨
    soloChain ∈ categoryFilter Category.altL1 [soloChain] :=
  (C2_amended soloChain [soloChain]).2.1 (by decide)

/-! ### Claim C9 -/

/-- C9: every bridge shown by the bridge-volume view has strictly positive
volume for the selected period (zero- or unknown-volume bridges are dropped
entirely, never shown with a rank), and in the concrete 7d scenario with
weekly volumes 100 and 0 only the first bridge appears, with rank 1 and share
exactly 100. -/
theorem C9_zero_volume_excluded :
    (∀ (bridges : List Bridge) (limit : Nat) (period : Period),
      ((bridgeVolumeHandler bridges limit period).bridges.all
        fun e => decide (0 < e.volumeRaw)) = true) ∧
    ((bridgeVolumeHandler [bridgeW100, bridgeW0] 10 Period.d7).bridges.map
        (fun e => (e.rank, e.name, e.volumeRaw, e.share)) =
      [(1, "Bridge One", (100 : ℚ), 100)]) := by
  constructor
  · intro bridges limit period
    rw [List.all_eq_true]
    intro e he
    rw [decide_eq_true_eq]
    simp only [bridgeVolumeHandler] at he
    rcases mem_mapWithRank he with ⟨i, b, hb, rfl⟩
    exact bridgeDisplayed_pos hb
  · have hd : bridgeDisplayed [bridgeW100, bridgeW0] 10 Period.d7 = [bridgeW100] := by decide
    simp only [bridgeVolumeHandler, hd, mapWithRank, List.map, List.sum_cons, List.sum_nil,
      volumeOf]
    norm_num [bridgeW100]

/-! ### Claim C6 -/

/-- The stablecoins field of a successful chain-details result (`none` when
the result is the not-found payload). -/
def detailsStablecoins : ChainDetailsOut → Option (Option ℚ)
  | .notFound _ => none
  | .ok d => some d.stablecoins

/-- C6: a query name matching no network record yields the structured
not-found payload carrying the first 20 chain names in original fetched
order; a found network with no stablecoin match yields a successful result
whose stablecoins field is null; both are ordinary results of the handler,
never failures. -/
theorem C6_not_found_handling :
    ∀ (chains : List Chain) (stables : List StablecoinChain) (q : String),
    (findByName Chain.name q chains = none →
      chainDetailsHandler chains stables q =
        ChainDetailsOut.notFound ((chains.take 20).map Chain.name)) ∧
    (∀ cd, findByName Chain.name q chains = some cd →
      findByName StablecoinChain.name q stables = none →
      detailsStablecoins (chainDetailsHandler chains stables q) = some none) := by
  intro chains stables q
  constructor
  · intro h
    simp only [chainDetailsHandler, h]
  · intro cd hcd hs
    simp only [chainDetailsHandler, hcd, hs]
    rfl

/-- Witness for C6: a miss on an empty collection returns the not-found
payload; a hit with no stablecoin record returns a null stablecoins field. -/
theorem C6_not_found_handling_witness :
    (chainDetailsHandler [] [] "Ethereum" = ChainDetailsOut.notFound []) ∧
    detailsStablecoins (chainDetailsHandler [ethereumChain] [] "ETHEREUM") = some none := by
  constructor
  · have h := (C6_not_found_handling [] [] "Ethereum").1 (by decide)
    simpa using h
  · exact (C6_not_found_handling [ethereumChain] [] "ETHEREUM").2 ethereumChain
      (by decide) (by decide)

/-! ### Claim C7 -/

/-- C7: a failed required fetch fails the whole query: each view's runner
returns an error as soon as any fetch it depends on has a non-success status,
and returns a result only when every required fetch succeeded — no partial
result, no retry. -/
theorem C7_provider_failure :
    ∀ (rc : FetchResponse (List Chain)) (rs : FetchResponse (List StablecoinChain))
      (rb : FetchResponse (List Bridge)) (q : String) (limit : Nat) (minTvl : ℚ)
      (category : Category) (slimit blimit : Nat) (period : Period) (names : List String),
    (rc.ok = false → (runOverview rc).isOk = false) ∧
    ((rc.ok = false ∨ rs.ok = false) → (runChainDetails rc rs q).isOk = false) ∧
    (rc.ok = false → (runTopChains rc limit minTvl category).isOk = false) ∧
    (rs.ok = false → (runStablecoinFlows rs slimit).isOk = false) ∧
    (rb.ok = false → (runBridgeVolume rb blimit period).isOk = false) ∧
    ((rc.ok = false ∨ rs.ok = false ∨ rb.ok = false) →
      (runChainCompare rc rs rb names).isOk = false) ∧
    ((runChainCompare rc rs rb names).isOk = true →
      rc.ok = true ∧ rs.ok = true ∧ rb.ok = true) := by
  intro rc rs rb q limit minTvl category slimit blimit period names
  cases hc : rc.ok <;> cases hs : rs.ok <;> cases hb : rb.ok <;>
    simp [runOverview, runChainDetails, runTopChains, runStablecoinFlows, runBridgeVolume,
      runChainCompare, fetchChains, fetchStablecoins, fetchBridges, hc, hs, hb, Except.isOk,
      Except.toBool]

/-- Witness for C7 at concrete failing and succeeding fetches. -/
theorem C7_provider_failure_witness :
    (runOverview { ok := false, status := 500, body := [] }).isOk = false ∧
    (runChainCompare { ok := true, status := 200, body := [] }
        { ok := true, status := 200, body := [] } { ok := false, status := 503, body := [] }
        ["Ethereum", "Base"]).isOk = false ∧
    ({ ok := true, status := 200, body := ([] : List Chain) } : FetchResponse (List Chain)).ok
        = true ∧
    ({ ok := true, status := 200, body := ([] : List StablecoinChain) } :
        FetchResponse (List StablecoinChain)).ok = true ∧
    ({ ok := true, status := 200, body := ([] : List Bridge) } :
        FetchResponse (List Bridge)).ok = true := by
  refine ⟨?_, ?_, ?_⟩
  · exact (C7_provider_failure { ok := false, status := 500, body := [] }
      { ok := true, status := 200, body := [] } { ok := true, status := 200, body := [] }
      "x" 1 0 Category.all 1 1 Period.h24 []).1 rfl
  · exact (C7_provider_failure { ok := true, status := 200, body := [] }
      { ok := true, status := 200, body := [] } { ok := false, status := 503, body := [] }
      "x" 1 0 Category.all 1 1 Period.h24 ["Ethereum", "Base"]).2.2.2.2.2.1
      (Or.inr (Or.inr rfl))
  · exact (C7_provider_failure { ok := true, status := 200, body := [] }
      { ok := true, status := 200, body := [] } { ok := true, status := 200, body := [] }
      "x" 1 0 Category.all 1 1 Period.h24 []).2.2.2.2.2.2 rfl

end ChainAnalytics

namespace ChainAnalytics

/-- C4: every ranked view emits ranks `1, 2, ..., n` in order, the ranking
field is non-increasing along the output, and the underlying sort is stable:
for every key value the sorted entries carrying that value are exactly the
input entries carrying it, in input order, and the displayed (post-limit)
entries carrying it are a sublist of them. -/
theorem C4_ranking_properties :
    (∀ (chains : List Chain) (limit : Nat) (minTvl : ℚ) (category : Category),
      ((topChainsHandler chains limit minTvl category).chains.map RankedChainEntry.rank =
        List.range' 1 (topChainsHandler chains limit minTvl category).chains.length) ∧
      ((topChainsHandler chains limit minTvl category).chains.map
        RankedChainEntry.tvlRaw).Pairwise (fun a b => b ≤ a)) ∧
    (∀ chains : List Chain,
      ((overviewHandler chains).top5.map Top5Entry.rank =
        List.range' 1 (overviewHandler chains).top5.length) ∧
      ((overviewHandler chains).top5.map Top5Entry.tvlRaw).Pairwise (fun a b => b ≤ a)) ∧
    (∀ (stables : List StablecoinChain) (limit : Nat),
      ((stablecoinFlowsHandler stables limit).distribution.map DistributionEntry.rank =
        List.range' 1 (stablecoinFlowsHandler stables limit).distribution.length) ∧
      ((stablecoinFlowsHandler stables limit).distribution.map
        DistributionEntry.stablecoinsRaw).Pairwise (fun a b => b ≤ a)) ∧
    (∀ (bridges : List Bridge) (limit : Nat) (period : Period),
      ((bridgeVolumeHandler bridges limit period).bridges.map BridgeEntry.rank =
        List.range' 1 (bridgeVolumeHandler bridges limit period).bridges.length) ∧
      ((bridgeVolumeHandler bridges limit period).bridges.map
        BridgeEntry.volumeRaw).Pairwise (fun a b => b ≤ a)) ∧
    (∀ (α : Type) (key : α → ℚ) (l : List α) (k : ℚ),
      ((sortDescBy key l).filter (fun a => decide (key a = k)) =
        l.filter (fun a => decide (key a = k))) ∧
      ∀ n : Nat, List.Sublist (((sortDescBy key l).take n).filter (fun a => decide (key a = k)))
        (l.filter (fun a => decide (key a = k)))) := by
  refine ⟨?_, ?_, ?_, ?_, ?_⟩
  · intro chains limit minTvl category
    simp only [topChainsHandler, topChainsDisplayed]
    exact ranked_output_props _ _ _ _ _ _ (fun i x => rfl) (fun i x => rfl)
  · intro chains
    simp only [overviewHandler]
    exact ranked_output_props _ _ _ _ _ _ (fun i x => rfl) (fun i x => rfl)
  · intro stables limit
    simp only [stablecoinFlowsHandler, stableDisplayed]
    exact ranked_output_props _ _ _ _ _ _ (fun i x => rfl) (fun i x => rfl)
  · intro bridges limit period
    simp only [bridgeVolumeHandler, bridgeDisplayed]
    exact ranked_output_props _ _ _ _ _ _ (fun i x => rfl) (fun i x => rfl)
  · intro α key l k
    exact ⟨sortDescBy_filter_key key k l, fun n => take_sortDescBy_filter_sublist key l n k⟩

end ChainAnalytics

namespace ChainAnalytics

/-! ### Share lemmas for the two post-slice views -/

theorem sum_map_div_mul_of {α : Type} (val : α → ℚ) (t : ℚ) : ∀ l : List α,
    (l.map fun s => val s / t * 100).sum = (l.map val).sum / t * 100
  | [] => by simp
  | v :: l => by
    simp [sum_map_div_mul_of val t l]
    ring

theorem stable_dist_raw_map (stables : List StablecoinChain) (limit : Nat) :
    (stablecoinFlowsHandler stables limit).distribution.map DistributionEntry.stablecoinsRaw
      = (stableDisplayed stables limit).map fun s => s.stablecoinsUSD := by
  simp only [stablecoinFlowsHandler]
  exact mapWithRank_map
    (fun i s => ({ rank := i + 1, chain := s.name, stablecoinsRaw := s.stablecoinsUSD,
                   share := s.stablecoinsUSD /
                     ((stableDisplayed stables limit).map fun s => s.stablecoinsUSD).sum *
                       100 } :
      DistributionEntry))
    DistributionEntry.stablecoinsRaw (fun s => s.stablecoinsUSD) (fun i x => rfl) 0
    (stableDisplayed stables limit)

theorem stable_dist_share_map (stables : List StablecoinChain) (limit : Nat) :
    (stablecoinFlowsHandler stables limit).distribution.map DistributionEntry.share
      = (stableDisplayed stables limit).map fun s => s.stablecoinsUSD /
          ((stableDisplayed stables limit).map fun s => s.stablecoinsUSD).sum * 100 := by
  simp only [stablecoinFlowsHandler]
  exact mapWithRank_map
    (fun i s => ({ rank := i + 1, chain := s.name, stablecoinsRaw := s.stablecoinsUSD,
                   share := s.stablecoinsUSD /
                     ((stableDisplayed stables limit).map fun s => s.stablecoinsUSD).sum *
                       100 } :
      DistributionEntry))
    DistributionEntry.share
    (fun s => s.stablecoinsUSD /
      ((stableDisplayed stables limit).map fun s => s.stablecoinsUSD).sum * 100)
    (fun i x => rfl) 0 (stableDisplayed stables limit)

theorem bridge_out_raw_map (bridges : List Bridge) (limit : Nat) (period : Period) :
    (bridgeVolumeHandler bridges limit period).bridges.map BridgeEntry.volumeRaw
      = (bridgeDisplayed bridges limit period).map (volumeOf period) := by
  simp only [bridgeVolumeHandler]
  exact mapWithRank_map
    (fun i b => ({ rank := i + 1, name := b.displayName, volumeRaw := volumeOf period b,
                   share := volumeOf period b /
                     ((bridgeDisplayed bridges limit period).map (volumeOf period)).sum * 100,
                   supportedChains := b.chains.length,
                   chains := b.chains.take 5 } : BridgeEntry))
    BridgeEntry.volumeRaw (volumeOf period) (fun i x => rfl) 0
    (bridgeDisplayed bridges limit period)

theorem bridge_out_share_map (bridges : List Bridge) (limit : Nat) (period : Period) :
    (bridgeVolumeHandler bridges limit period).bridges.map BridgeEntry.share
      = (bridgeDisplayed bridges limit period).map fun b => volumeOf period b /
          ((bridgeDisplayed bridges limit period).map (volumeOf period)).sum * 100 := by
  simp only [bridgeVolumeHandler]
  exact mapWithRank_map
    (fun i b => ({ rank := i + 1, name := b.displayName, volumeRaw := volumeOf period b,
                   share := volumeOf period b /
                     ((bridgeDisplayed bridges limit period).map (volumeOf period)).sum * 100,
                   supportedChains := b.chains.length,
                   chains := b.chains.take 5 } : BridgeEntry))
    BridgeEntry.share
    (fun b => volumeOf period b /
      ((bridgeDisplayed bridges limit period).map (volumeOf period)).sum * 100)
    (fun i x => rfl) 0 (bridgeDisplayed bridges limit period)

theorem stableTotal_pos {stables : List StablecoinChain} {limit : Nat}
    (h : stableDisplayed stables limit ≠ []) :
    0 < ((stableDisplayed stables limit).map fun s => s.stablecoinsUSD).sum := by
  apply List.sum_pos
  · intro a ha
    rcases List.mem_map.mp ha with ⟨s, hs, rfl⟩
    exact stableDisplayed_pos hs
  · simpa only [ne_eq, List.map_eq_nil_iff] using h

theorem bridgeTotal_pos {bridges : List Bridge} {limit : Nat} {period : Period}
    (h : bridgeDisplayed bridges limit period ≠ []) :
    0 < ((bridgeDisplayed bridges limit period).map (volumeOf period)).sum := by
  apply List.sum_pos
  · intro a ha
    rcases List.mem_map.mp ha with ⟨b, hb, rfl⟩
    exact bridgeDisplayed_pos hb
  · simpa only [ne_eq, List.map_eq_nil_iff] using h

/-- C3: in the stablecoin-distribution and bridge-ranking views the shares are
computed over the already-sliced list: every displayed entry's raw share
equals its raw value divided by the sum of that value over exactly the
displayed entries, times 100, and consequently the raw shares of any
non-empty displayed list sum to exactly 100. -/
theorem C3_post_slice_shares :
    ∀ (stables : List StablecoinChain) (slimit : Nat) (bridges : List Bridge)
      (blimit : Nat) (period : Period),
    (((stablecoinFlowsHandler stables slimit).distribution.all fun e =>
      decide (e.share = e.stablecoinsRaw /
        ((stablecoinFlowsHandler stables slimit).distribution.map
          DistributionEntry.stablecoinsRaw).sum * 100)) = true) ∧
    ((stablecoinFlowsHandler stables slimit).distribution = [] ∨
      ((stablecoinFlowsHandler stables slimit).distribution.map
        DistributionEntry.share).sum = 100) ∧
    (((bridgeVolumeHandler bridges blimit period).bridges.all fun e =>
      decide (e.share = e.volumeRaw /
        ((bridgeVolumeHandler bridges blimit period).bridges.map
          BridgeEntry.volumeRaw).sum * 100)) = true) ∧
    ((bridgeVolumeHandler bridges blimit period).bridges = [] ∨
      ((bridgeVolumeHandler bridges blimit period).bridges.map BridgeEntry.share).sum = 100) := by
  intro stables slimit bridges blimit period
  refine ⟨?_, ?_, ?_, ?_⟩
  · rw [List.all_eq_true]
    intro e he
    rw [decide_eq_true_eq, stable_dist_raw_map]
    simp only [stablecoinFlowsHandler] at he
    rcases mem_mapWithRank he with ⟨i, s, hs, rfl⟩
    rfl
  · by_cases hd : stableDisplayed stables slimit = []
    · left
      simp only [stablecoinFlowsHandler, hd, mapWithRank]
    · right
      have hpos := stableTotal_pos hd
      rw [stable_dist_share_map, sum_map_div_mul_of, div_self (ne_of_gt hpos)]
      norm_num
  · rw [List.all_eq_true]
    intro e he
    rw [decide_eq_true_eq, bridge_out_raw_map]
    simp only [bridgeVolumeHandler] at he
    rcases mem_mapWithRank he with ⟨i, b, hb, rfl⟩
    rfl
  · by_cases hd : bridgeDisplayed bridges blimit period = []
    · left
      simp only [bridgeVolumeHandler, hd, mapWithRank]
    · right
      have hpos := bridgeTotal_pos hd
      rw [bridge_out_share_map, sum_map_div_mul_of, div_self (ne_of_gt hpos)]
      norm_num

/-- C5: the two share-emitting views never evaluate their division at a zero
denominator: only entries with strictly positive raw values are displayed, so
the displayed total is zero exactly when the displayed list is empty — and
then no share is emitted at all. -/
theorem C5_no_degenerate_share :
    ∀ (stables : List StablecoinChain) (slimit : Nat) (bridges : List Bridge)
      (blimit : Nat) (period : Period),
    (((stablecoinFlowsHandler stables slimit).distribution.all fun e =>
      decide (0 < e.stablecoinsRaw)) = true) ∧
    ((stablecoinFlowsHandler stables slimit).distribution = [] ∨
      0 < (stablecoinFlowsHandler stables slimit).totalStablecoinsRaw) ∧
    (((bridgeVolumeHandler bridges blimit period).bridges.all fun e =>
      decide (0 < e.volumeRaw)) = true) ∧
    ((bridgeVolumeHandler bridges blimit period).bridges = [] ∨
      0 < (bridgeVolumeHandler bridges blimit period).totalVolumeRaw) := by
  intro stables slimit bridges blimit period
  refine ⟨?_, ?_, ?_, ?_⟩
  · rw [List.all_eq_true]
    intro e he
    rw [decide_eq_true_eq]
    simp only [stablecoinFlowsHandler] at he
    rcases mem_mapWithRank he with ⟨i, s, hs, rfl⟩
    exact stableDisplayed_pos hs
  · by_cases hd : stableDisplayed stables slimit = []
    · left
      simp only [stablecoinFlowsHandler, hd, mapWithRank]
    · right
      have hpos := stableTotal_pos hd
      simpa only [stablecoinFlowsHandler] using hpos
  · rw [List.all_eq_true]
    intro e he
    rw [decide_eq_true_eq]
    simp only [bridgeVolumeHandler] at he
    rcases mem_mapWithRank he with ⟨i, b, hb, rfl⟩
    exact bridgeDisplayed_pos hb
  · by_cases hd : bridgeDisplayed bridges blimit period = []
    · left
      simp only [bridgeVolumeHandler, hd, mapWithRank]
    · right
      have hpos := bridgeTotal_pos hd
      simpa only [bridgeVolumeHandler] using hpos

end ChainAnalytics

namespace ChainAnalytics

/-! ### Claim C10 -/

/-- C10: the top-chains totals are computed over only the returned slice:
`count` is the number of returned entries and `totalTVLRaw` is the sum of
`tvlRaw` over exactly the returned chains; whenever the filtered set is larger
than the limit and every dropped entry has positive tvl, the reported total is
strictly below the filtered set's total. -/
theorem C10_total_over_displayed :
    ∀ (chains : List Chain) (limit : Nat) (minTvl : ℚ) (category : Category),
    ((topChainsHandler chains limit minTvl category).count =
      (topChainsHandler chains limit minTvl category).chains.length) ∧
    ((topChainsHandler chains limit minTvl category).totalTVLRaw =
      ((topChainsHandler chains limit minTvl category).chains.map
        RankedChainEntry.tvlRaw).sum) ∧
    (limit < (topChainsFiltered chains minTvl category).length →
      (∀ c ∈ (sortDescBy (fun c => c.tvl) (topChainsFiltered chains minTvl category)).drop limit,
        0 < c.tvl) →
      (topChainsHandler chains limit minTvl category).totalTVLRaw <
        ((topChainsFiltered chains minTvl category).map fun c => c.tvl).sum) := by
  intro chains limit minTvl category
  refine ⟨?_, ?_, ?_⟩
  · simp only [topChainsHandler]
    exact (mapWithRank_length _ 0 _).symm
  · simp only [topChainsHandler, topChainsDisplayed]
    rw [mapWithRank_map
      (fun (i : Nat) (c : Chain) => ({ rank := i + 1, name := c.name, tvlRaw := c.tvl,
                                       tokenSymbol := c.tokenSymbol } : RankedChainEntry))
      RankedChainEntry.tvlRaw (fun c => c.tvl) (fun i x => rfl) 0
      ((sortDescBy (fun c => c.tvl) (topChainsFiltered chains minTvl category)).take limit)]
  · intro hlen hdrop
    have hperm : ((sortDescBy (fun c => c.tvl) (topChainsFiltered chains minTvl category)).map
        fun c => c.tvl).sum = ((topChainsFiltered chains minTvl category).map fun c => c.tvl).sum :=
      List.Perm.sum_eq ((sortDescBy_perm _ _).map _)
    have hsplit := List.take_append_drop limit
      (sortDescBy (fun c => c.tvl) (topChainsFiltered chains minTvl category))
    have hlen2 : (sortDescBy (fun c => c.tvl) (topChainsFiltered chains minTvl category)).length
        = (topChainsFiltered chains minTvl category).length :=
      (sortDescBy_perm _ _).length_eq
    have hdropne : (sortDescBy (fun c => c.tvl)
        (topChainsFiltered chains minTvl category)).drop limit ≠ [] := by
      intro h0
      have := List.length_drop limit
        (sortDescBy (fun c => c.tvl) (topChainsFiltered chains minTvl category))
      rw [h0, hlen2] at this
      simp only [List.length_nil] at this
      omega
    have hpos : 0 < (((sortDescBy (fun c => c.tvl)
        (topChainsFiltered chains minTvl category)).drop limit).map fun c => c.tvl).sum := by
      apply List.sum_pos
      · intro a ha
        rcases List.mem_map.mp ha with ⟨c, hc, rfl⟩
        exact hdrop c hc
      · simpa only [ne_eq, List.map_eq_nil_iff] using hdropne
    have hsum : ((topChainsFiltered chains minTvl category).map fun c => c.tvl).sum =
        (((sortDescBy (fun c => c.tvl)
          (topChainsFiltered chains minTvl category)).take limit).map fun c => c.tvl).sum +
        (((sortDescBy (fun c => c.tvl)
          (topChainsFiltered chains minTvl category)).drop limit).map fun c => c.tvl).sum := by
      rw [← hperm]
      conv_lhs => rw [← hsplit]
      rw [List.map_append, List.sum_append]
    have htot : (topChainsHandler chains limit minTvl category).totalTVLRaw =
        (((sortDescBy (fun c => c.tvl)
          (topChainsFiltered chains minTvl category)).take limit).map fun c => c.tvl).sum := rfl
    rw [htot, hsum]
    exact lt_add_of_pos_right _ hpos

def demoChainA : Chain :=
  { name := "A", tvl := 2, tokenSymbol := none, gecko_id := none, chainId := none }

def demoChainB : Chain :=
  { name := "B", tvl := 1, tokenSymbol := none, gecko_id := none, chainId := none }

/-- Witness for C10: with two positive-tvl chains and limit 1, the reported
total is strictly below the filtered set's total. -/
theorem C10_total_over_displayed_witness :
    (topChainsHandler [demoChainA, demoChainB] 1 0 Category.all).totalTVLRaw <
      ((topChainsFiltered [demoChainA, demoChainB] 0 Category.all).map fun c => c.tvl).sum :=
  (C10_total_over_displayed [demoChainA, demoChainB] 1 0 Category.all).2.2
    (by decide) (by decide)

end ChainAnalytics

namespace ChainAnalytics

/-! ### Claim C1 -/

theorem some_getLastD {α : Type} : ∀ (t : List α) (a : α),
    some (t.getLastD a) = (a :: t).getLast?
  | [], a => by simp
  | b :: t, a => by
    rw [List.getLastD_cons, some_getLastD t b, List.getLast?_cons_cons]

/-- The JS `reduce` with the max-picking reducer returns a maximising element
of a non-empty array. -/
theorem jsReduce_pickMax_spec {α : Type} (v : α → ℚ) (l : List α) (hl : l ≠ []) :
    ∃ m, jsReduce (pickMax v) l = some m ∧ m ∈ l ∧ ∀ y ∈ l, v y ≤ v m := by
  rcases List.exists_cons_of_ne_nil hl with ⟨a, t, rfl⟩
  refine ⟨t.foldl (pickMax v) a, rfl, ?_, ?_⟩
  · rcases foldl_pickMax_mem v t a with h | h
    · rw [h]
      exact List.mem_cons_self a t
    · exact List.mem_cons_of_mem a h
  · intro y hy
    rcases List.mem_cons.mp hy with rfl | hy
    · exact le_foldl_pickMax v t y
    · exact mem_le_foldl_pickMax v t a y hy

/-- On an all-ties array the max-picking `reduce` keeps its second argument at
every step, hence returns the LAST element. -/
theorem jsReduce_pickMax_const {α : Type} (v : α → ℚ) (c : ℚ) :
    ∀ l : List α, (∀ y ∈ l, v y = c) → jsReduce (pickMax v) l = l.getLast?
  | [], _ => rfl
  | a :: t, h => by
    have hfold : t.foldl (pickMax v) a = t.getLastD a := by
      apply foldl_pickMax_all_eq
      intro y hy
      rw [h y (List.mem_cons_of_mem a hy), h a (List.mem_cons_self a t)]
    show some (t.foldl (pickMax v) a) = (a :: t).getLast?
    rw [hfold, some_getLastD]

/-- A comparison entry for a name that misses the chains collection carries
the query name, zero tvl, and `found = false`. -/
theorem compareEntry_of_none {allChains : List Chain} {stables : List StablecoinChain}
    {bridges : List Bridge} {sorted : List Chain} {n : String}
    (h : findByName Chain.name n allChains = none) :
    (compareEntryFor allChains stables bridges sorted n).name = n ∧
    (compareEntryFor allChains stables bridges sorted n).tvlRaw = 0 := by
  simp only [compareEntryFor, h]
  exact ⟨rfl, rfl⟩

theorem compareEntry_found_of_some {allChains : List Chain} {stables : List StablecoinChain}
    {bridges : List Bridge} {sorted : List Chain} {n : String} {c : Chain}
    (h : findByName Chain.name n allChains = some c) :
    (compareEntryFor allChains stables bridges sorted n).found = true := by
  simp only [compareEntryFor, h]
  rfl

/-- C1 counterexample: comparing two names that match nothing (empty provider
collections), every compared entity is not-found and both winners are the
LAST input name "Beta", not the first name "Alpha" as the claim states. -/
theorem C1_counterexample :
    ((chainCompareHandler [] [] [] ["Alpha", "Beta"]).comparison.all
      fun e => !e.found) = true ∧
    (chainCompareHandler [] [] [] ["Alpha", "Beta"]).highestTVL = some "Beta" ∧
    (chainCompareHandler [] [] [] ["Alpha", "Beta"]).mostStablecoins = some "Beta" ∧
    (chainCompareHandler [] [] [] ["Alpha", "Beta"]).highestTVL ≠ some "Alpha" ∧
    (chainCompareHandler [] [] [] ["Alpha", "Beta"]).mostStablecoins ≠ some "Alpha" := by
  refine ⟨by decide, by decide, by decide, by decide, by decide⟩

/-- C1 (amended): each winner is the name of a comparison entry achieving the
maximum of the respective raw field (with not-found entities contributing 0),
and the reduce keeps its second argument on ties, so when every compared
entity is not-found and no stablecoin value is attributed, both winners are
deterministically the LAST entry in input order, not the first. -/
theorem C1_winner_selection :
    ∀ (allChains : List Chain) (stables : List StablecoinChain) (bridges : List Bridge)
      (names : List String), names ≠ [] →
    (∃ e, e ∈ (chainCompareHandler allChains stables bridges names).comparison ∧
      (chainCompareHandler allChains stables bridges names).highestTVL = some e.name ∧
      ∀ x ∈ (chainCompareHandler allChains stables bridges names).comparison,
        x.tvlRaw ≤ e.tvlRaw) ∧
    (∃ e, e ∈ (chainCompareHandler allChains stables bridges names).comparison ∧
      (chainCompareHandler allChains stables bridges names).mostStablecoins = some e.name ∧
      ∀ x ∈ (chainCompareHandler allChains stables bridges names).comparison,
        x.stablecoinsRaw ≤ e.stablecoinsRaw) ∧
    ((∀ e ∈ (chainCompareHandler allChains stables bridges names).comparison,
        e.found = false ∧ e.stablecoinsRaw = 0) →
      (chainCompareHandler allChains stables bridges names).highestTVL = names.getLast? ∧
      (chainCompareHandler allChains stables bridges names).mostStablecoins
        = names.getLast?) := by
  intro allChains stables bridges names hne
  have hC : (chainCompareHandler allChains stables bridges names).comparison =
      names.map (compareEntryFor allChains stables bridges
        (sortDescBy (fun c => c.tvl) allChains)) := rfl
  have hT : (chainCompareHandler allChains stables bridges names).highestTVL =
      (jsReduce (pickMax CompareEntry.tvlRaw)
        ((chainCompareHandler allChains stables bridges names).comparison)).map
        CompareEntry.name := rfl
  have hS : (chainCompareHandler allChains stables bridges names).mostStablecoins =
      (jsReduce (pickMax CompareEntry.stablecoinsRaw)
        ((chainCompareHandler allChains stables bridges names).comparison)).map
        CompareEntry.name := rfl
  have hne2 : (chainCompareHandler allChains stables bridges names).comparison ≠ [] := by
    rw [hC]
    simpa only [ne_eq, List.map_eq_nil_iff] using hne
  refine ⟨?_, ?_, ?_⟩
  · rcases jsReduce_pickMax_spec CompareEntry.tvlRaw _ hne2 with ⟨m, hm, hmem, hmax⟩
    refine ⟨m, hmem, ?_, hmax⟩
    rw [hT, hm]
    rfl
  · rcases jsReduce_pickMax_spec CompareEntry.stablecoinsRaw _ hne2 with ⟨m, hm, hmem, hmax⟩
    refine ⟨m, hmem, ?_, hmax⟩
    rw [hS, hm]
    rfl
  · intro hall
    have hfound : ∀ n ∈ names, findByName Chain.name n allChains = none := by
      intro n hn
      have hmem : compareEntryFor allChains stables bridges
          (sortDescBy (fun c => c.tvl) allChains) n ∈
          (chainCompareHandler allChains stables bridges names).comparison := by
        rw [hC]
        exact List.mem_map_of_mem _ hn
      have hf := (hall _ hmem).1
      cases ho : findByName Chain.name n allChains with
      | none => rfl
      | some c =>
          rw [compareEntry_found_of_some ho] at hf
          cases hf
    have hZtvl : ∀ e ∈ (chainCompareHandler allChains stables bridges names).comparison,
        e.tvlRaw = 0 := by
      intro e he
      rw [hC] at he
      rcases List.mem_map.mp he with ⟨n, hn, rfl⟩
      exact (compareEntry_of_none (hfound n hn)).2
    have hZst : ∀ e ∈ (chainCompareHandler allChains stables bridges names).comparison,
        e.stablecoinsRaw = 0 := fun e he => (hall e he).2
    have hlast : ((chainCompareHandler allChains stables bridges names).comparison.getLast?).map
        CompareEntry.name = names.getLast? := by
      rw [hC, List.getLast?_map,
        List.getLast?_eq_getLast_of_ne_nil hne, Option.map_map, Option.map_some']
      have hnl : names.getLast hne ∈ names := List.getLast_mem hne
      exact congrArg some
        ((compareEntry_of_none (hfound _ hnl)).1)
    constructor
    · rw [hT, jsReduce_pickMax_const CompareEntry.tvlRaw 0 _ hZtvl, hlast]
    · rw [hS, jsReduce_pickMax_const CompareEntry.stablecoinsRaw 0 _ hZst, hlast]

/-- Witness for C1 (amended): at two unmatched names the winners are the last
input name. -/
theorem C1_winner_selection_witness :
    (chainCompareHandler [] [] [] ["Alpha", "Beta"]).highestTVL
      = ["Alpha", "Beta"].getLast? ∧
    (chainCompareHandler [] [] [] ["Alpha", "Beta"]).mostStablecoins
      = ["Alpha", "Beta"].getLast? :=
  (C1_winner_selection [] [] [] ["Alpha", "Beta"] (by decide)).2.2 (by decide)

end ChainAnalytics
